import Mathlib

/-!
Verification development for the `tata` peer-to-peer messaging core.

Shallow embedding of the components the specification talks about:
ring buffer (`src/primitives/src/ring_vec.rs`), the private-chat protocol
handler (`src/core/src/network/private_chat/handler.rs`), the FFI boundary
(`src/core/src/ffi.rs`, `src/primitives/src/ffi/bytearray.rs`), the event
codec (`src/primitives/src/event.rs`) and the base58 peer-identity codec
(`src/cli/src/models/peer_id.rs`).

Bytes are modelled as `Nat` (with bounds carried as hypotheses where they
matter), `usize` as unbounded `Nat`, Rust `Vec`/`VecDeque` as `List`.
Operations that can panic in Rust (out-of-bounds indexing, `expect`)
return `Option`, with `none` standing for a panic.
-/

namespace Tata

/-! ## Ring buffer — `src/primitives/src/ring_vec.rs` -/

/-- `RingVec<T>`: fixed-size backing vector, monotonically increasing
logical position.  `data` models the Rust `Vec<T>`. -/
structure RingVec (T : Type) where
  size : Nat
  pos : Nat
  data : List T
  deriving DecidableEq, Repr

/-- `RingVec::new(size)`. -/
def RingVec.new (T : Type) (size : Nat) : RingVec T :=
  { size := size, pos := 0, data := [] }

/-- `RingVec::push`.  The source increments `self.pos` first, then either
appends (while the backing vector is shorter than `size`) or writes at
`self.pos % self.size`.  The indexed write panics if the index is out of
bounds (and `% 0` panics too); both panics are modelled as `none`. -/
def RingVec.push {T : Type} (r : RingVec T) (elem : T) : Option (RingVec T) :=
  let pos := r.pos + 1
  if r.data.length ≠ r.size then
    some { r with pos := pos, data := r.data ++ [elem] }
  else
    if r.size ≠ 0 ∧ pos % r.size < r.data.length then
      some { r with pos := pos, data := r.data.set (pos % r.size) elem }
    else
      none

/-- `RingVec::get`.  Returns `some none` for the in-range-check failure
(Rust returns `None`), `some (some x)` for a found element, and `none` for
the `expect` panic (element missing from the backing vector). -/
def RingVec.get {T : Type} (r : RingVec T) (pos : Nat) : Option (Option T) :=
  if pos ≥ r.pos ∨ pos + r.size < r.pos then
    some none
  else
    match r.data.get? (pos % r.size) with
    | some x => some (some x)
    | none => none

/-- Sequence of pushes; `none` as soon as one push panics. -/
def RingVec.pushN {T : Type} (r : RingVec T) : List T → Option (RingVec T)
  | [] => some r
  | x :: xs =>
    match r.push x with
    | none => none
    | some r' => r'.pushN xs

/-- Invariant tying the backing vector's length to the logical position. -/
def RingVec.Inv {T : Type} (N : Nat) (r : RingVec T) : Prop :=
  r.size = N ∧ r.data.length = min r.pos N

/-! ## Private chat protocol handler —
`src/core/src/network/private_chat/handler.rs`

`Duration` is modelled in whole seconds as `Nat`; `Delay` (an armed retry
timer) as the `Nat` duration it was armed with.  The framed substream is
modelled as the queue of results its `poll_next` will yield (`Pending`
being the empty open queue); completion of in-flight send futures and the
`serde_json` payload codec are supplied as parameters to `poll`. -/

/-- `const INITIAL_RETRY: Duration = Duration::from_secs(1)`. -/
def INITIAL_RETRY : Nat := 1

/-- `const RETRY_EXP: u32 = 2`. -/
def RETRY_EXP : Nat := 2

/-- `const MAX_RETRY: Duration = Duration::from_secs(120)`. -/
def MAX_RETRY : Nat := 120

/-- Modelled from the spec: `HandshakeMetadata`
(`src/core/src/network/private_chat/protocol.rs` is not in the sources) is
an "implementation-defined small record" exchanged at negotiation; its
contents do not affect any claim. -/
structure HandshakeMetadata where
  identity : List Nat
  deriving DecidableEq, Repr

/-- Modelled from the spec: `primitives::PlainTextMessage` (its defining
file is not in the sources); §6 gives the wire payload as
`{recipientIdentity, timestamp, text}`, and `src/core/src/ffi.rs` builds it
as `PlainTextMessage { to, timestamp, text }`.  Strings are UTF-8 byte
lists. -/
structure PlainTextMessage where
  «to» : List Nat
  timestamp : Nat
  text : List Nat
  deriving DecidableEq, Repr

/-- Modelled from the spec: `primitives::ErrorMessage` (defining file not
in the sources); the handler constructs `Unreachable`, `Parse` and
`Network` (§7 error kinds). -/
inductive ErrorMessage
  | Unreachable
  | Parse
  | Network
  deriving DecidableEq, Repr

/-- Modelled from the spec: `primitives::Event` as used by the handler
(defining file not in the sources); §3 lists the domain-event variants,
and the handler constructs `ReceivedPlainTextMessage`,
`SentPlainTextMessage(Timestamp)` and `Error`. -/
inductive NetEvent
  | ReceivedPlainTextMessage (message : PlainTextMessage)
  | SentPlainTextMessage (timestamp : Nat)
  | Metadata (peer_id : List Nat)
  | PeerDiscovered (peer_id : List Nat)
  | PeerGone (peer_id : List Nat)
  | Error (e : ErrorMessage)
  deriving DecidableEq, Repr

/-- One result the framed substream will yield: a complete frame's payload
bytes, or an I/O error. -/
inductive StreamItem
  | data (bytes : List Nat)
  | ioError
  deriving DecidableEq, Repr

/-- The negotiated, length-codec-framed substream: queue of upcoming
`poll_next` results plus whether the remote closed it.  An empty open
queue models `Poll::Pending`; an empty closed one `Poll::Ready(None)`. -/
structure ChatStream where
  items : List StreamItem
  closed : Bool
  deriving DecidableEq, Repr

/-- `PrivateChatHandler`'s state.  `outgoing_messages` keeps only the keys
(timestamps) of the in-flight send futures, in iteration order; whether a
future has completed is supplied to `poll` as the `ready` parameter.
`errors` is the `VecDeque` with its front at the list head. -/
structure PrivateChatHandler where
  local_metadata : HandshakeMetadata
  stream : Option ChatStream
  pending_metadata : Option HandshakeMetadata
  pending_sending_messages : List PlainTextMessage
  outgoing_messages : List Nat
  errors : List ErrorMessage
  retry : Option Nat
  retry_value : Nat
  deriving DecidableEq, Repr

/-- `PrivateChatHandler::new`. -/
def PrivateChatHandler.new (local_metadata : HandshakeMetadata) : PrivateChatHandler :=
  { local_metadata := local_metadata
    stream := none
    pending_metadata := none
    pending_sending_messages := []
    outgoing_messages := []
    errors := []
    retry := none
    retry_value := INITIAL_RETRY }

/-- `PrivateChatHandler::send`: enqueue at the back of the pending queue. -/
def PrivateChatHandler.send (h : PrivateChatHandler) (message : PlainTextMessage) :
    PrivateChatHandler :=
  { h with pending_sending_messages := h.pending_sending_messages ++ [message] }

/-- `inject_fully_negotiated_inbound` / `..._outbound` (identical bodies):
store the stream and the peer's handshake metadata. -/
def PrivateChatHandler.inject_fully_negotiated
    (h : PrivateChatHandler) (metadata : HandshakeMetadata) (stream : ChatStream) :
    PrivateChatHandler :=
  { h with stream := some stream, pending_metadata := some metadata }

/-- `inject_dial_upgrade_error`: clear the stream, queue an `Unreachable`
error at the front, arm the retry timer with the current backoff value,
double the value, and if the doubled value exceeds `MAX_RETRY` reset it to
`INITIAL_RETRY` and disarm the timer. -/
def PrivateChatHandler.inject_dial_upgrade_error (h : PrivateChatHandler) :
    PrivateChatHandler :=
  let armed := { h with
    stream := none
    errors := ErrorMessage.Unreachable :: h.errors
    retry := some h.retry_value
    retry_value := h.retry_value * RETRY_EXP }
  if armed.retry_value > MAX_RETRY then
    { armed with retry_value := INITIAL_RETRY, retry := none }
  else
    armed

/-- `HashMap::insert` on the key list: an existing key keeps its place
(its future is overwritten), a new key is appended. -/
def insertOutgoing (l : List Nat) (ts : Nat) : List Nat :=
  if ts ∈ l then l else l ++ [ts]

/-- First in-flight timestamp (in iteration order) whose send future has
completed — the `for &timestamp in timestamps` scan in `poll`. -/
def firstReady (ready : Nat → Bool) : List Nat → Option Nat
  | [] => none
  | t :: ts => if ready t then some t else firstReady ready ts

/-- Outcome of one `poll` call: `Poll::Pending` or
`Poll::Ready(ProtocolsHandlerEvent::Custom(e))`. -/
inductive PollResult
  | pending
  | event (e : NetEvent)
  deriving DecidableEq, Repr

/-- `PrivateChatHandler::poll`.
`decode` models `serde_json::from_slice::<PlainTextMessage>`, `ready`
models which in-flight send futures complete when polled this turn.
In source order: (1) pop the oldest pending error (`pop_back`; pushes are
`push_front`) and emit `Error(Unreachable)`; (2) with a stream present,
scan in-flight sends and on the first completed one remove it and emit
`SentPlainTextMessage`; (3) drain every queued outbound message into a new
in-flight send keyed by its timestamp; (4) poll the stream for the next
frame: decode success emits `ReceivedPlainTextMessage`, decode failure
emits `Error(Parse)`, an I/O error emits `Error(Network)`, end-of-stream
only logs.  Otherwise `Pending`. -/
def PrivateChatHandler.poll (decode : List Nat → Option PlainTextMessage)
    (ready : Nat → Bool) (h : PrivateChatHandler) : PollResult × PrivateChatHandler :=
  match h.errors.getLast? with
  | some _ =>
    (PollResult.event (NetEvent.Error ErrorMessage.Unreachable),
     { h with errors := h.errors.dropLast })
  | none =>
    match h.stream with
    | none => (PollResult.pending, h)
    | some st =>
      match firstReady ready h.outgoing_messages with
      | some ts =>
        (PollResult.event (NetEvent.SentPlainTextMessage ts),
         { h with outgoing_messages := h.outgoing_messages.erase ts })
      | none =>
        let h1 := { h with
          pending_sending_messages := []
          outgoing_messages := h.pending_sending_messages.foldl
            (fun acc m => insertOutgoing acc m.timestamp) h.outgoing_messages }
        match st.items with
        | [] => (PollResult.pending, h1)
        | StreamItem.data bytes :: rest =>
          let h2 := { h1 with stream := some { st with items := rest } }
          match decode bytes with
          | some message =>
            (PollResult.event (NetEvent.ReceivedPlainTextMessage message), h2)
          | none =>
            (PollResult.event (NetEvent.Error ErrorMessage.Parse), h2)
        | StreamItem.ioError :: rest =>
          (PollResult.event (NetEvent.Error ErrorMessage.Network),
           { h1 with stream := some { st with items := rest } })

/-- Handler state after `k` consecutive negotiation failures
(`inject_dial_upgrade_error` calls) starting from a fresh handler. -/
def afterFailures : Nat → PrivateChatHandler
  | 0 => PrivateChatHandler.new { identity := [] }
  | k + 1 => (afterFailures k).inject_dial_upgrade_error

/-! ## UTF-8 validation

Models the validation performed by Rust's `String::from_utf8` (standard
UTF-8 well-formedness: ASCII; 2-byte `C2..DF`; 3-byte `E0 A0..BF`,
`E1..EC | EE | EF 80..BF`, `ED 80..9F` (no surrogates); 4-byte
`F0 90..BF`, `F1..F3 80..BF`, `F4 80..8F` (≤ U+10FFFF); each followed by
continuation bytes `80..BF`). -/

/-- Continuation byte: `0x80..0xBF`. -/
def utf8Cont (c : Nat) : Bool := 0x80 ≤ c && c ≤ 0xBF

/-- Whole-sequence UTF-8 validity. -/
def utf8Valid : List Nat → Bool
  | [] => true
  | b :: rest =>
    if b < 0x80 then utf8Valid rest
    else if 0xC2 ≤ b && b ≤ 0xDF then
      match rest with
      | c1 :: rest1 => utf8Cont c1 && utf8Valid rest1
      | [] => false
    else if b = 0xE0 then
      match rest with
      | c1 :: c2 :: rest1 =>
        (0xA0 ≤ c1 && c1 ≤ 0xBF) && utf8Cont c2 && utf8Valid rest1
      | _ => false
    else if (0xE1 ≤ b && b ≤ 0xEC) || b = 0xEE || b = 0xEF then
      match rest with
      | c1 :: c2 :: rest1 => utf8Cont c1 && utf8Cont c2 && utf8Valid rest1
      | _ => false
    else if b = 0xED then
      match rest with
      | c1 :: c2 :: rest1 =>
        (0x80 ≤ c1 && c1 ≤ 0x9F) && utf8Cont c2 && utf8Valid rest1
      | _ => false
    else if b = 0xF0 then
      match rest with
      | c1 :: c2 :: c3 :: rest1 =>
        (0x90 ≤ c1 && c1 ≤ 0xBF) && utf8Cont c2 && utf8Cont c3 && utf8Valid rest1
      | _ => false
    else if 0xF1 ≤ b && b ≤ 0xF3 then
      match rest with
      | c1 :: c2 :: c3 :: rest1 =>
        utf8Cont c1 && utf8Cont c2 && utf8Cont c3 && utf8Valid rest1
      | _ => false
    else if b = 0xF4 then
      match rest with
      | c1 :: c2 :: c3 :: rest1 =>
        (0x80 ≤ c1 && c1 ≤ 0x8F) && utf8Cont c2 && utf8Cont c3 && utf8Valid rest1
      | _ => false
    else false

/-! ## Ownership-transferring byte buffer —
`src/primitives/src/ffi/bytearray.rs`

The raw `(*mut u8, usize)` pair is modelled as the byte sequence the
allocation holds plus a `live` flag tracking whether the memory has been
released; `free` and the consuming conversions flip `live` to `false`. -/

/-- FFI `ByteArray` (the allocation it owns, and whether it is still
live). -/
structure ByteArray where
  data : List Nat
  live : Bool
  deriving DecidableEq, Repr

/-- `From<Vec<u8>> for ByteArray`: takes ownership of the storage without
copying. -/
def ByteArray.from_vec (v : List Nat) : ByteArray :=
  { data := v, live := true }

/-- `ByteArray::free`: releases the allocation. -/
def ByteArray.free (b : ByteArray) : ByteArray :=
  { b with live := false }

/-- `Into<Vec<u8>> for ByteArray`: copies the bytes out, then frees the
buffer — the one-shot conversion. -/
def ByteArray.into_vec (b : ByteArray) : List Nat × ByteArray :=
  (b.data, b.free)

/-- `std::string::FromUtf8Error`. -/
inductive FromUtf8Error
  | invalid
  deriving DecidableEq, Repr

/-- `TryInto<String> for ByteArray`: converts through `Into<Vec<u8>>`
(which frees the buffer) and then validates UTF-8.  A Rust `String` is
modelled as its UTF-8 byte sequence. -/
def ByteArray.try_into_string (b : ByteArray) :
    Except FromUtf8Error (List Nat) × ByteArray :=
  let (bytes, b1) := b.into_vec
  (if utf8Valid bytes then Except.ok bytes else Except.error FromUtf8Error.invalid, b1)

/-! ## FFI boundary — `src/core/src/ffi.rs` -/

/-- `const CHANNEL_BUFFER_SIZE: usize = 10`. -/
def CHANNEL_BUFFER_SIZE : Nat := 10

/-- The bounded mpsc command channel (`futures::channel::mpsc::channel(10)`
holding `IncomingEvent::Message` values). -/
structure Channel where
  buffered : List PlainTextMessage
  deriving DecidableEq, Repr

/-- `Sender::try_send`: enqueue if there is room, otherwise fail (full
channel).  The `Bool` is whether the send succeeded. -/
def Channel.try_send (c : Channel) (m : PlainTextMessage) : Bool × Channel :=
  if c.buffered.length < CHANNEL_BUFFER_SIZE then
    (true, { buffered := c.buffered ++ [m] })
  else
    (false, c)

/-- `send_message`.  `cell` is the `EVENTS_SENDER` global (`none` when no
network instance is running); the `Mutex` lock is modelled as always
succeeding (lock poisoning is a concurrency failure outside this model).
Result: the returned `bool`, the updated channel cell, and the domain
events emitted by the call — always `[]`, since `send_message` never
invokes the native callback.  A failed `try_send` is only logged. -/
def send_message (cell : Option Channel) (to_peer_id : ByteArray)
    (message : ByteArray) (timestamp : Nat) : Bool × Option Channel × List NetEvent :=
  match cell with
  | none => (false, none, [])
  | some ch =>
    match to_peer_id.try_into_string with
    | (Except.error _, _) => (false, some ch, [])
    | (Except.ok toStr, _) =>
      match message.try_into_string with
      | (Except.error _, _) => (false, some ch, [])
      | (Except.ok text, _) =>
        let m : PlainTextMessage := { «to» := toStr, timestamp := timestamp, text := text }
        let res := ch.try_send m
        (true, some res.2, [])

/-! ## Peer identity — `src/cli/src/models/peer_id.rs`

The `bs58` crate (external) is modelled by its documented algorithm:
Bitcoin alphabet, the byte string read as a big-endian base-256 integer
converted to base-58 digits, each leading `0x00` byte becoming a leading
`'1'` character; decoding reverses this and rejects any character outside
the alphabet. -/

/-- The Bitcoin base58 alphabet
`123456789ABCDEFGHJKLMNPQRSTUVWXYZabcdefghijkmnopqrstuvwxyz`, as bytes. -/
def BASE58_ALPHABET : List Nat :=
  [0x31, 0x32, 0x33, 0x34, 0x35, 0x36, 0x37, 0x38, 0x39,
   0x41, 0x42, 0x43, 0x44, 0x45, 0x46, 0x47, 0x48, 0x4A, 0x4B, 0x4C, 0x4D, 0x4E,
   0x50, 0x51, 0x52, 0x53, 0x54, 0x55, 0x56, 0x57, 0x58, 0x59, 0x5A,
   0x61, 0x62, 0x63, 0x64, 0x65, 0x66, 0x67, 0x68, 0x69, 0x6A, 0x6B,
   0x6D, 0x6E, 0x6F, 0x70, 0x71, 0x72, 0x73, 0x74, 0x75, 0x76, 0x77, 0x78, 0x79, 0x7A]

/-- Digit value → alphabet character. -/
def digitChar (d : Nat) : Nat := BASE58_ALPHABET.getD d 0

/-- Alphabet character → digit value (`none` for a character outside the
alphabet). -/
def charDigit (c : Nat) : Option Nat := BASE58_ALPHABET.findIdx? (· = c)

/-- Little-endian digits of `n` in base `b` (canonical: no trailing zero
digit; `n = 0` gives `[]`).  Bases below 2 give `[]`. -/
def natToDigits (b n : Nat) : List Nat :=
  if h : n = 0 ∨ b < 2 then []
  else n % b :: natToDigits b (n / b)
termination_by n
decreasing_by
  push_neg at h
  exact Nat.div_lt_self (Nat.pos_of_ne_zero h.1) h.2

/-- Value of a little-endian digit list in base `b`. -/
def ofDigitsLE (b : Nat) (l : List Nat) : Nat :=
  l.foldr (fun d a => d + b * a) 0

/-- Value of a big-endian digit list in base `b` (the accumulator loop the
`bs58` crate runs over the input). -/
def ofDigitsBE (b : Nat) (l : List Nat) : Nat :=
  l.foldl (fun a d => a * b + d) 0

/-- Number of leading occurrences of `a`. -/
def countLeading (a : Nat) : List Nat → Nat
  | [] => 0
  | x :: xs => if x = a then countLeading a xs + 1 else 0

/-- Drop the leading occurrences of `a`. -/
def stripLeading (a : Nat) : List Nat → List Nat
  | [] => []
  | x :: xs => if x = a then stripLeading a xs else x :: xs

/-- `bs58::encode(data).into_string()` (as bytes). -/
def bs58_encode (v : List Nat) : List Nat :=
  List.replicate (countLeading 0 v) 0x31 ++
    (natToDigits 58 (ofDigitsBE 256 v)).reverse.map digitChar

/-- `bs58::decode::Error` (only the variant the model can produce). -/
inductive Bs58Error
  | invalidCharacter
  deriving DecidableEq, Repr

/-- Look up every character; `none` if any is outside the alphabet. -/
def charDigits : List Nat → Option (List Nat)
  | [] => some []
  | c :: cs =>
    match charDigit c, charDigits cs with
    | some d, some ds => some (d :: ds)
    | _, _ => none

/-- `bs58::decode(s).into_vec()`. -/
def bs58_decode (s : List Nat) : Except Bs58Error (List Nat) :=
  match charDigits s with
  | none => Except.error Bs58Error.invalidCharacter
  | some digits =>
    Except.ok (List.replicate (countLeading 0x31 s) 0 ++
      (natToDigits 256 (ofDigitsBE 58 digits)).reverse)

/-- `PeerId(String)`: the base58 text form, as bytes. -/
structure PeerId where
  val : List Nat
  deriving DecidableEq, Repr

/-- `PeerId::new`. -/
def PeerId.new (s : List Nat) : PeerId := { val := s }

/-- `PeerId::as_bytes`: `bs58::decode(&self.0).into_vec()?`. -/
def PeerId.as_bytes (p : PeerId) : Except Bs58Error (List Nat) :=
  bs58_decode p.val

/-- `From<Vec<u8>> for PeerId`: `bs58::encode(data).into_string()`. -/
def PeerId.from_vec (data : List Nat) : PeerId :=
  { val := bs58_encode data }

/-! ## JSON payload codec

Models `serde_json` for the event payload structs of
`src/primitives/src/event.rs`, whose fields are all strings: serialization
emits the canonical `\x7b"key":"value",...\x7d` form with `serde_json`'s
string escaping (`\"`, `\\`, `\b`, `\t`, `\n`, `\f`, `\r`, and `\u00XX`
for remaining control bytes); deserialization parses a string-valued
object (whitespace tolerated, fields in any order, unknown fields
ignored, duplicate or missing fields rejected, trailing garbage
rejected).  Model restriction: `\uXXXX` escapes are only accepted for
ASCII code points — the encoder never emits larger ones. -/

/-- Lower-case hex digit character for a value below 16. -/
def hexDigitChar (d : Nat) : Nat := if d < 10 then 0x30 + d else 0x57 + d

/-- Hex digit value of a character (upper or lower case accepted). -/
def hexVal (c : Nat) : Option Nat :=
  if 0x30 ≤ c ∧ c ≤ 0x39 then some (c - 0x30)
  else if 0x61 ≤ c ∧ c ≤ 0x66 then some (c - 0x57)
  else if 0x41 ≤ c ∧ c ≤ 0x46 then some (c - 0x37)
  else none

/-- `serde_json`'s escaping of one byte inside a string literal. -/
def jsonEscapeByte (b : Nat) : List Nat :=
  if b = 0x22 then [0x5C, 0x22]
  else if b = 0x5C then [0x5C, 0x5C]
  else if b = 0x08 then [0x5C, 0x62]
  else if b = 0x09 then [0x5C, 0x74]
  else if b = 0x0A then [0x5C, 0x6E]
  else if b = 0x0C then [0x5C, 0x66]
  else if b = 0x0D then [0x5C, 0x72]
  else if b < 0x20 then
    [0x5C, 0x75, 0x30, 0x30, hexDigitChar (b / 16), hexDigitChar (b % 16)]
  else [b]

/-- Escaped body of a string literal. -/
def jsonEscape (s : List Nat) : List Nat := (s.map jsonEscapeByte).flatten

/-- A full JSON string literal (opening quote, escaped body, closing
quote). -/
def jsonStringEnc (s : List Nat) : List Nat := 0x22 :: (jsonEscape s ++ [0x22])

/-- Parse a string literal body after the opening quote; returns the
unescaped content and the input after the closing quote. -/
def parseStringBody : List Nat → Option (List Nat × List Nat)
  | [] => none
  | b :: rest =>
    if b = 0x22 then some ([], rest)
    else if b = 0x5C then
      match rest with
      | [] => none
      | e :: rest1 =>
        if e = 0x22 then (parseStringBody rest1).map (fun p => (0x22 :: p.1, p.2))
        else if e = 0x5C then (parseStringBody rest1).map (fun p => (0x5C :: p.1, p.2))
        else if e = 0x2F then (parseStringBody rest1).map (fun p => (0x2F :: p.1, p.2))
        else if e = 0x62 then (parseStringBody rest1).map (fun p => (0x08 :: p.1, p.2))
        else if e = 0x66 then (parseStringBody rest1).map (fun p => (0x0C :: p.1, p.2))
        else if e = 0x6E then (parseStringBody rest1).map (fun p => (0x0A :: p.1, p.2))
        else if e = 0x72 then (parseStringBody rest1).map (fun p => (0x0D :: p.1, p.2))
        else if e = 0x74 then (parseStringBody rest1).map (fun p => (0x09 :: p.1, p.2))
        else if e = 0x75 then
          match rest1 with
          | h1 :: h2 :: h3 :: h4 :: rest2 =>
            match hexVal h1, hexVal h2, hexVal h3, hexVal h4 with
            | some a1, some a2, some a3, some a4 =>
              let cp := a1 * 4096 + a2 * 256 + a3 * 16 + a4
              if cp < 0x80 then (parseStringBody rest2).map (fun p => (cp :: p.1, p.2))
              else none
            | _, _, _, _ => none
          | _ => none
        else none
    else (parseStringBody rest).map (fun p => (b :: p.1, p.2))

/-- JSON insignificant whitespace. -/
def isWs (c : Nat) : Bool := c = 0x20 || c = 0x09 || c = 0x0A || c = 0x0D

/-- Skip insignificant whitespace. -/
def skipWs (l : List Nat) : List Nat := l.dropWhile isWs

/-- Parse the members of a non-empty string-valued object, the opening
brace already consumed.  The fuel bounds the number of members (callers
pass the input length, which is always enough). -/
def parseMembersAux : Nat → List Nat → Option (List (List Nat × List Nat) × List Nat)
  | 0, _ => none
  | fuel + 1, input =>
    match skipWs input with
    | 0x22 :: r =>
      match parseStringBody r with
      | none => none
      | some (key, r1) =>
        match skipWs r1 with
        | 0x3A :: r2 =>
          match skipWs r2 with
          | 0x22 :: r3 =>
            match parseStringBody r3 with
            | none => none
            | some (val, r4) =>
              match skipWs r4 with
              | 0x2C :: r5 =>
                match parseMembersAux fuel r5 with
                | some (ms, r6) => some ((key, val) :: ms, r6)
                | none => none
              | 0x7D :: r5 => some ([(key, val)], r5)
              | _ => none
          | _ => none
        | _ => none
    | _ => none

/-- Parse a string-valued JSON object; returns its members in order and
the remaining input. -/
def parseObject (input : List Nat) : Option (List (List Nat × List Nat) × List Nat) :=
  match skipWs input with
  | 0x7B :: r =>
    match skipWs r with
    | 0x7D :: r1 => some ([], r1)
    | _ => parseMembersAux (input.length + 1) r
  | _ => none

/-- `from_slice` front end: one object covering the whole input (trailing
whitespace allowed). -/
def structMembers (input : List Nat) : Option (List (List Nat × List Nat)) :=
  match parseObject input with
  | some (ms, rest) => if skipWs rest = [] then some ms else none
  | none => none

/-- Field lookup with `serde`'s duplicate-field rejection: defined only
when the key occurs exactly once. -/
def getField (ms : List (List Nat × List Nat)) (key : List Nat) : Option (List Nat) :=
  match ms.filter (fun kv => kv.1 == key) with
  | [kv] => some kv.2
  | _ => none

/-- The bytes of `"from"`. -/
def keyFrom : List Nat := [0x66, 0x72, 0x6F, 0x6D]

/-- The bytes of `"text"`. -/
def keyText : List Nat := [0x74, 0x65, 0x78, 0x74]

/-- The bytes of `"peer_id"`. -/
def keyPeerId : List Nat := [0x70, 0x65, 0x65, 0x72, 0x5F, 0x69, 0x64]

/-- Canonical one-member object `\x7b"k":"v"\x7d`. -/
def encodeObj1 (k1 v1 : List Nat) : List Nat :=
  0x7B :: (jsonStringEnc k1 ++ 0x3A :: jsonStringEnc v1 ++ [0x7D])

/-- Canonical two-member object `\x7b"k1":"v1","k2":"v2"\x7d`. -/
def encodeObj2 (k1 v1 k2 v2 : List Nat) : List Nat :=
  0x7B :: (jsonStringEnc k1 ++ 0x3A :: jsonStringEnc v1 ++
    0x2C :: jsonStringEnc k2 ++ 0x3A :: jsonStringEnc v2 ++ [0x7D])

end Tata

namespace Tata.EventCodec

/-! ## Typed event codec — `src/primitives/src/event.rs`

`Event` here is `primitives::event::Event`, the four-variant domain-event
enum of `event.rs`; its payload structs have only string fields (modelled
as UTF-8 byte lists).  `FFIEvent`/`EventTag` (`crate::ffi::Event`, file
not in the sources) are modelled from the spec: a closed enumerable tag
paired with an opaque payload buffer. -/

/-- `PlainTextMessage` of `event.rs`: `pub from: String, pub text:
String`. -/
structure PlainTextMessage where
  «from» : List Nat
  text : List Nat
  deriving DecidableEq, Repr

/-- `PeerDiscoveryMessage`: `pub peer_id: String`. -/
structure PeerDiscoveryMessage where
  peer_id : List Nat
  deriving DecidableEq, Repr

/-- `MetadataMessage`: `pub peer_id: String`. -/
structure MetadataMessage where
  peer_id : List Nat
  deriving DecidableEq, Repr

/-- `serde_json::to_vec` for `PlainTextMessage` (declared field order). -/
def PlainTextMessage.to_vec (m : PlainTextMessage) : List Nat :=
  encodeObj2 keyFrom m.«from» keyText m.text

/-- `serde_json::from_slice::<PlainTextMessage>`. -/
def PlainTextMessage.from_slice (b : List Nat) : Option PlainTextMessage := do
  let ms ← structMembers b
  let f ← getField ms keyFrom
  let t ← getField ms keyText
  pure { «from» := f, text := t }

/-- `serde_json::to_vec` for `PeerDiscoveryMessage`. -/
def PeerDiscoveryMessage.to_vec (m : PeerDiscoveryMessage) : List Nat :=
  encodeObj1 keyPeerId m.peer_id

/-- `serde_json::from_slice::<PeerDiscoveryMessage>`. -/
def PeerDiscoveryMessage.from_slice (b : List Nat) : Option PeerDiscoveryMessage := do
  let ms ← structMembers b
  let p ← getField ms keyPeerId
  pure { peer_id := p }

/-- `serde_json::to_vec` for `MetadataMessage`. -/
def MetadataMessage.to_vec (m : MetadataMessage) : List Nat :=
  encodeObj1 keyPeerId m.peer_id

/-- `serde_json::from_slice::<MetadataMessage>`. -/
def MetadataMessage.from_slice (b : List Nat) : Option MetadataMessage := do
  let ms ← structMembers b
  let p ← getField ms keyPeerId
  pure { peer_id := p }

/-- Modelled from the spec: `crate::ffi::EventTag`, the closed tag set
(one tag per domain-event variant). -/
inductive EventTag
  | PlainTextMessage
  | PeerDiscovered
  | PeerGone
  | Metadata
  deriving DecidableEq, Repr

/-- Modelled from the spec: `crate::ffi::Event` (`FFIEvent`), a tag plus
an opaque payload buffer. -/
structure FFIEvent where
  tag : EventTag
  data : ByteArray
  deriving DecidableEq, Repr

/-- `Event` of `event.rs`: the closed four-variant domain-event enum. -/
inductive Event
  | PlainTextMessage (m : EventCodec.PlainTextMessage)
  | Metadata (m : MetadataMessage)
  | PeerDiscovered (m : PeerDiscoveryMessage)
  | PeerGone (m : PeerDiscoveryMessage)
  deriving DecidableEq, Repr

/-- `Into<FFIEvent> for Event`: pick the variant's tag and serialize its
payload into a fresh byte buffer (`serde_json::to_vec(&self).into()`). -/
def Event.into_ffi : Event → FFIEvent
  | .PlainTextMessage d => { tag := .PlainTextMessage, data := ByteArray.from_vec d.to_vec }
  | .PeerDiscovered d => { tag := .PeerDiscovered, data := ByteArray.from_vec d.to_vec }
  | .PeerGone d => { tag := .PeerGone, data := ByteArray.from_vec d.to_vec }
  | .Metadata d => { tag := .Metadata, data := ByteArray.from_vec d.to_vec }

/-- `serde_json::error::Error` (decode failure). -/
inductive JsonError
  | parse
  deriving DecidableEq, Repr

/-- `TryFrom<FFIEvent> for Event`: take the payload bytes out of the
buffer (`data.into()`, which frees it), then decode according to the tag;
a payload that fails to parse yields a decode error. -/
def Event.try_from (ev : FFIEvent) : Except JsonError Event :=
  let bytes := (ev.data.into_vec).1
  match ev.tag with
  | EventTag.PlainTextMessage =>
    match PlainTextMessage.from_slice bytes with
    | some payload => Except.ok (Event.PlainTextMessage payload)
    | none => Except.error JsonError.parse
  | EventTag.PeerDiscovered =>
    match PeerDiscoveryMessage.from_slice bytes with
    | some payload => Except.ok (Event.PeerDiscovered payload)
    | none => Except.error JsonError.parse
  | EventTag.PeerGone =>
    match PeerDiscoveryMessage.from_slice bytes with
    | some payload => Except.ok (Event.PeerGone payload)
    | none => Except.error JsonError.parse
  | EventTag.Metadata =>
    match MetadataMessage.from_slice bytes with
    | some payload => Except.ok (Event.Metadata payload)
    | none => Except.error JsonError.parse

end Tata.EventCodec

namespace Tata

theorem RingVec.inv_new (T : Type) (N : Nat) : RingVec.Inv N (RingVec.new T N) := by
  constructor <;> simp [RingVec.new]

theorem RingVec.push_inv {T : Type} {N : Nat} (hN : 1 ≤ N) (r : RingVec T) (x : T)
    (h : RingVec.Inv N r) :
    ∃ r', RingVec.push r x = some r' ∧ RingVec.Inv N r' ∧ r'.pos = r.pos + 1 := by
  obtain ⟨hsize, hlen⟩ := h
  by_cases hfull : r.data.length = r.size
  · have hposN : r.pos ≥ N := by
      rw [hfull, hsize] at hlen
      omega
    have hidx : (r.pos + 1) % r.size < r.data.length := by
      rw [hfull, hsize]
      exact Nat.mod_lt _ (by omega)
    refine ⟨{ r with pos := r.pos + 1, data := r.data.set ((r.pos + 1) % r.size) x },
      ?_, ⟨by simpa using hsize, ?_⟩, rfl⟩
    · simp only [RingVec.push, hfull]
      simp only [ne_eq, not_true_eq_false, if_false]
      rw [if_pos ⟨by omega, Nat.mod_lt _ (by omega)⟩]
    · simp only [List.length_set]
      rw [hfull, hsize]
      omega
  · have hlt : r.data.length < N := by
      rw [hsize] at hfull
      omega
    refine ⟨{ r with pos := r.pos + 1, data := r.data ++ [x] }, ?_,
      ⟨by simpa using hsize, ?_⟩, rfl⟩
    · simp only [RingVec.push]
      rw [if_pos (by simpa [hsize] using hfull)]
    · simp only [List.length_append, List.length_singleton]
      omega

theorem RingVec.pushN_inv {T : Type} {N : Nat} (hN : 1 ≤ N) (xs : List T) (r : RingVec T)
    (h : RingVec.Inv N r) :
    ∃ r', RingVec.pushN r xs = some r' ∧ RingVec.Inv N r' ∧ r'.pos = r.pos + xs.length := by
  induction xs generalizing r with
  | nil => exact ⟨r, rfl, h, by simp⟩
  | cons x xs ih =>
    obtain ⟨r1, hpush, hinv1, hpos1⟩ := RingVec.push_inv hN r x h
    obtain ⟨r', hrest, hinv', hpos'⟩ := ih r1 hinv1
    refine ⟨r', ?_, hinv', by simp [hpos', hpos1]; omega⟩
    simp only [RingVec.pushN, hpush]
    exact hrest

theorem RingVec.get_inv {T : Type} {N : Nat} (hN : 1 ≤ N) (r : RingVec T)
    (h : RingVec.Inv N r) (p : Nat) : r.get p ≠ none := by
  obtain ⟨hsize, hlen⟩ := h
  unfold RingVec.get
  by_cases hout : p ≥ r.pos ∨ p + r.size < r.pos
  · simp [hout]
  · have hp : p < r.pos := by
      push_neg at hout
      exact hout.1
    have hidx : p % r.size < r.data.length := by
      rw [hsize] at *
      rcases Nat.lt_or_ge r.pos N with hc | hc
      · have : p % N = p := Nat.mod_eq_of_lt (by omega)
        rw [hlen, this]
        omega
      · rw [hlen]
        have := Nat.mod_lt p (show 0 < N by omega)
        omega
    rw [if_neg hout]
    have : r.data.get? (p % r.size) = some (r.data.get ⟨p % r.size, hidx⟩) :=
      List.get?_eq_get hidx
    rw [this]
    simp

/-- C10: for every ring buffer constructed with capacity `N ≥ 1` and every
sequence of pushes, no push panics (the modular write index stays in
bounds) and no `get` panics (whenever the range check passes, the backing
store lookup succeeds — the `expect` branch is unreachable). -/
theorem ringVec_no_panic (N : Nat) (xs : List Nat) (hN : 1 ≤ N) :
    ∃ r, RingVec.pushN (RingVec.new Nat N) xs = some r ∧ ∀ p, r.get p ≠ none := by
  obtain ⟨r, hr, hinv, -⟩ :=
    RingVec.pushN_inv hN xs (RingVec.new Nat N) (RingVec.inv_new Nat N)
  exact ⟨r, hr, fun p => RingVec.get_inv hN r hinv p⟩

theorem ringVec_no_panic_witness :
    ∃ r, RingVec.pushN (RingVec.new Nat 2) [5, 6, 7] = some r ∧ ∀ p, r.get p ≠ none :=
  ringVec_no_panic 2 [5, 6, 7] (by decide)

/-- C1 (failing input): the code contradicts the claimed read-back value.
With capacity 2 and pushes `[10, 20, 30]`, the range check admits logical
positions 1 and 2, but `get 1` returns the 2nd pushed element `30` (not
`20`) and `get 2` returns the 0th pushed element `10` (not `30`): `push`
advances `pos` before writing, so overwrites land at `(i+1) % size` while
`get` reads `i % size`. -/
theorem ringVec_get_value_mismatch :
    ∃ r, RingVec.pushN (RingVec.new Nat 2) [10, 20, 30] = some r ∧
      r.get 1 = some (some 30) ∧ r.get 2 = some (some 10) ∧
      r.get 1 ≠ some (some 20) ∧ r.get 2 ≠ some (some 30) := by
  refine ⟨{ size := 2, pos := 3, data := [10, 30] }, ?_, ?_, ?_, ?_, ?_⟩ <;> decide

/-- One push onto a capacity-1 ring buffer: the single slot ends up holding
the pushed element. -/
theorem RingVec.push_cap_one (r : RingVec Nat) (x : Nat)
    (hsize : r.size = 1) (hlen : r.data.length = min r.pos 1) :
    RingVec.push r x = some { size := 1, pos := r.pos + 1, data := [x] } := by
  obtain ⟨s, p, d⟩ := r
  simp only at hsize hlen
  subst hsize
  match d, hlen with
  | [], hlen =>
    have hp : p = 0 := by simp at hlen; omega
    subst hp
    simp [RingVec.push]
  | [a], hlen =>
    have hp : 1 ≤ p := by simp at hlen; omega
    simp [RingVec.push, Nat.mod_one]
  | a :: b :: rest, hlen =>
    exfalso
    simp at hlen
    omega

/-- Backing state after pushing `x :: xs` onto a capacity-1 ring buffer:
one stored element, the most recently pushed one. -/
theorem RingVec.pushN_cap_one (xs : List Nat) (x : Nat) (r : RingVec Nat)
    (hsize : r.size = 1) (hlen : r.data.length = min r.pos 1) :
    RingVec.pushN r (x :: xs) =
      some { size := 1, pos := r.pos + xs.length + 1, data := [(x :: xs).getLast (by simp)] } := by
  induction xs generalizing r x with
  | nil =>
    simp [RingVec.pushN, RingVec.push_cap_one r x hsize hlen]
  | cons y ys ih =>
    have step := RingVec.push_cap_one r x hsize hlen
    have tail := ih y { size := 1, pos := r.pos + 1, data := [x] } rfl (by simp)
    simp only [RingVec.pushN, step] at tail ⊢
    rw [tail]
    simp [List.getLast_cons]
    omega

/-- C9: for capacity 1, after the pushes `x :: xs`, `get` yields a value
exactly at the logical position of the most recent push (`xs.length`,
0-indexed), and that value is the most recently pushed element. -/
theorem ringVec_cap_one_last (x : Nat) (xs : List Nat) :
    ∃ r, RingVec.pushN (RingVec.new Nat 1) (x :: xs) = some r ∧
      ∀ p, r.get p = if p = xs.length
        then some (some ((x :: xs).getLast (by simp)))
        else some none := by
  refine ⟨_, RingVec.pushN_cap_one xs x (RingVec.new Nat 1) rfl (by simp [RingVec.new]), ?_⟩
  intro p
  simp only [RingVec.new]
  by_cases hp : p = xs.length
  · subst hp
    simp [RingVec.get, Nat.mod_one]
  · rw [if_neg hp]
    unfold RingVec.get
    rw [if_pos (by simp; omega)]

theorem inject_dial_retry_value (h : PrivateChatHandler) :
    h.inject_dial_upgrade_error.retry_value =
      if h.retry_value * RETRY_EXP > MAX_RETRY then INITIAL_RETRY
      else h.retry_value * RETRY_EXP := by
  simp only [PrivateChatHandler.inject_dial_upgrade_error]
  split <;> rfl

theorem inject_dial_retry (h : PrivateChatHandler) :
    h.inject_dial_upgrade_error.retry =
      if h.retry_value * RETRY_EXP > MAX_RETRY then none
      else some h.retry_value := by
  simp only [PrivateChatHandler.inject_dial_upgrade_error]
  split <;> rfl

theorem afterFailures_retry_value (k : Nat) :
    (afterFailures k).retry_value = 2 ^ (k % 7) := by
  induction k with
  | zero => rfl
  | succ k ih =>
    have h7 : k % 7 < 7 := Nat.mod_lt _ (by decide)
    have hstep := inject_dial_retry_value (afterFailures k)
    rw [show afterFailures (k + 1) = (afterFailures k).inject_dial_upgrade_error from rfl,
      hstep, ih]
    rcases Nat.lt_or_ge (k % 7) 6 with h6 | h6
    · rw [if_neg (by
        have : 2 ^ (k % 7) ≤ 2 ^ 5 := Nat.pow_le_pow_right (by decide) (by omega)
        simp [RETRY_EXP, MAX_RETRY]
        omega)]
      have hmod : (k + 1) % 7 = k % 7 + 1 := by omega
      rw [hmod, pow_succ, RETRY_EXP]
    · have hk6 : k % 7 = 6 := by omega
      rw [hk6, if_pos (by decide)]
      have hmod : (k + 1) % 7 = 0 := by omega
      rw [hmod]
      rfl

/-- C2: starting from a fresh handler, consecutive negotiation failures
arm retry delays 1, 2, 4, 8, 16, 32 (doubling, with the backoff value at
twice the armed delay); at the 7th failure the doubled value 128 exceeds
`MAX_RETRY = 120`, so the value resets to `INITIAL_RETRY = 1` and no retry
timer remains armed; the whole behaviour then repeats with period 7, i.e.
a fresh failure sequence starts over at delay 1. -/
theorem retry_backoff_sequence :
    (∀ k, 1 ≤ k → k ≤ 6 →
      (afterFailures k).retry = some (2 ^ (k - 1)) ∧
      (afterFailures k).retry_value = 2 ^ k) ∧
    ((afterFailures 7).retry = none ∧ (afterFailures 7).retry_value = INITIAL_RETRY) ∧
    (∀ k, (afterFailures (k + 7)).retry = (afterFailures k).retry ∧
      (afterFailures (k + 7)).retry_value = (afterFailures k).retry_value) := by
  refine ⟨?_, ⟨by decide, by decide⟩, ?_⟩
  · intro k h1 h6
    interval_cases k <;> exact ⟨by decide, by decide⟩
  · intro k
    refine ⟨?_, ?_⟩
    · rcases k with _ | j
      · decide
      · show ((afterFailures (j + 7)).inject_dial_upgrade_error).retry =
          ((afterFailures j).inject_dial_upgrade_error).retry
        rw [inject_dial_retry, inject_dial_retry,
          afterFailures_retry_value, afterFailures_retry_value,
          Nat.add_mod_right]
    · rw [afterFailures_retry_value, afterFailures_retry_value, Nat.add_mod_right]

theorem retry_backoff_sequence_witness :
    ((afterFailures 3).retry = some 4 ∧ (afterFailures 3).retry_value = 8) ∧
    ((afterFailures 7).retry = none ∧ (afterFailures 7).retry_value = INITIAL_RETRY) ∧
    ((afterFailures 15).retry = (afterFailures 8).retry ∧
      (afterFailures 15).retry_value = (afterFailures 8).retry_value) :=
  ⟨retry_backoff_sequence.1 3 (by decide) (by decide),
   retry_backoff_sequence.2.1,
   retry_backoff_sequence.2.2 8⟩

/-- C3: each `poll` checks its sources in fixed priority order and returns
the first result produced.  (1) With a pending protocol error queued, it
pops the oldest and emits `Error(Unreachable)`, touching nothing else.
Otherwise, with a stream present: (2) if some in-flight outbound send has
completed (first in iteration order), it is removed and
`SentPlainTextMessage` is emitted, the queued messages staying put;
otherwise (3) every queued outbound message moves into a new in-flight
send keyed by its timestamp, and (4) the next stream item determines the
result: a frame is decoded and emitted (or `Error(Parse)` on malformed
payload), an I/O error emits `Error(Network)`, and an idle or ended stream
yields `Pending`. -/
theorem poll_priority_order (decode : List Nat → Option PlainTextMessage)
    (ready : Nat → Bool) (h : PrivateChatHandler) (st : ChatStream) :
    (h.errors ≠ [] →
      h.poll decode ready =
        (PollResult.event (NetEvent.Error ErrorMessage.Unreachable),
         { h with errors := h.errors.dropLast })) ∧
    (h.errors = [] → h.stream = some st →
      (∀ ts, firstReady ready h.outgoing_messages = some ts →
        h.poll decode ready =
          (PollResult.event (NetEvent.SentPlainTextMessage ts),
           { h with outgoing_messages := h.outgoing_messages.erase ts })) ∧
      (firstReady ready h.outgoing_messages = none →
        (st.items = [] →
          h.poll decode ready =
            (PollResult.pending,
             { h with
                pending_sending_messages := []
                outgoing_messages := h.pending_sending_messages.foldl
                  (fun acc m => insertOutgoing acc m.timestamp) h.outgoing_messages })) ∧
        (∀ bytes rest, st.items = StreamItem.data bytes :: rest →
          h.poll decode ready =
            ((match decode bytes with
              | some message => PollResult.event (NetEvent.ReceivedPlainTextMessage message)
              | none => PollResult.event (NetEvent.Error ErrorMessage.Parse)),
             { h with
                pending_sending_messages := []
                outgoing_messages := h.pending_sending_messages.foldl
                  (fun acc m => insertOutgoing acc m.timestamp) h.outgoing_messages
                stream := some { st with items := rest } })) ∧
        (∀ rest, st.items = StreamItem.ioError :: rest →
          h.poll decode ready =
            (PollResult.event (NetEvent.Error ErrorMessage.Network),
             { h with
                pending_sending_messages := []
                outgoing_messages := h.pending_sending_messages.foldl
                  (fun acc m => insertOutgoing acc m.timestamp) h.outgoing_messages
                stream := some { st with items := rest } })))) := by
  refine ⟨?_, ?_⟩
  · intro hne
    simp only [PrivateChatHandler.poll, List.getLast?_eq_getLast _ hne]
  · intro herr hstream
    refine ⟨?_, ?_⟩
    · intro ts hts
      simp only [PrivateChatHandler.poll, herr, hstream, hts, List.getLast?_nil]
    · intro hnone
      refine ⟨?_, ?_, ?_⟩
      · intro hitems
        simp only [PrivateChatHandler.poll, herr, hstream, hnone, hitems,
          List.getLast?_nil]
      · intro bytes rest hitems
        simp only [PrivateChatHandler.poll, herr, hstream, hnone, hitems,
          List.getLast?_nil]
        cases decode bytes <;> rfl
      · intro rest hitems
        simp only [PrivateChatHandler.poll, herr, hstream, hnone, hitems,
          List.getLast?_nil]

theorem poll_priority_order_witness :
    (PrivateChatHandler.poll (fun _ => none) (fun _ => false)
      { local_metadata := { identity := [] }, stream := some { items := [], closed := false },
        pending_metadata := none, pending_sending_messages := [], outgoing_messages := [],
        errors := [ErrorMessage.Unreachable], retry := none, retry_value := 1 } =
      (PollResult.event (NetEvent.Error ErrorMessage.Unreachable),
       { local_metadata := { identity := [] }, stream := some { items := [], closed := false },
         pending_metadata := none, pending_sending_messages := [], outgoing_messages := [],
         errors := ([ErrorMessage.Unreachable] : List ErrorMessage).dropLast,
         retry := none, retry_value := 1 })) ∧
    (PrivateChatHandler.poll (fun _ => none) (fun ts => ts == 9)
      { local_metadata := { identity := [] }, stream := some { items := [], closed := false },
        pending_metadata := none,
        pending_sending_messages := [{ «to» := [2], timestamp := 5, text := [3] }],
        outgoing_messages := [4, 9],
        errors := [], retry := none, retry_value := 1 } =
      (PollResult.event (NetEvent.SentPlainTextMessage 9),
       { local_metadata := { identity := [] }, stream := some { items := [], closed := false },
         pending_metadata := none,
         pending_sending_messages := [{ «to» := [2], timestamp := 5, text := [3] }],
         outgoing_messages := ([4, 9] : List Nat).erase 9,
         errors := [], retry := none, retry_value := 1 })) ∧
    (PrivateChatHandler.poll (fun _ => none) (fun _ => false)
      { local_metadata := { identity := [] },
        stream := some { items := [StreamItem.data [7]], closed := false },
        pending_metadata := none,
        pending_sending_messages := [{ «to» := [2], timestamp := 5, text := [3] }],
        outgoing_messages := [],
        errors := [], retry := none, retry_value := 1 } =
      (PollResult.event (NetEvent.Error ErrorMessage.Parse),
       { local_metadata := { identity := [] },
         stream := some { items := [], closed := false },
         pending_metadata := none,
         pending_sending_messages := [],
         outgoing_messages := [5],
         errors := [], retry := none, retry_value := 1 })) := by
  refine ⟨?_, ?_, ?_⟩
  · exact (poll_priority_order (fun _ => none) (fun _ => false) _
      { items := [], closed := false }).1 (by decide)
  · exact ((poll_priority_order (fun _ => none) (fun ts => ts == 9) _
      { items := [], closed := false }).2 rfl rfl).1 9 (by decide)
  · have := (((poll_priority_order (fun _ => none) (fun _ => false)
      { local_metadata := { identity := [] },
        stream := some { items := [StreamItem.data [7]], closed := false },
        pending_metadata := none,
        pending_sending_messages := [{ «to» := [2], timestamp := 5, text := [3] }],
        outgoing_messages := [],
        errors := [], retry := none, retry_value := 1 }
      { items := [StreamItem.data [7]], closed := false }).2 rfl rfl).2 (by decide)).2.1
      [7] [] rfl
    simpa [insertOutgoing] using this

/-- C6: when the handler reads a complete frame with malformed payload it
emits `Error(Parse)` and the stream stays open and otherwise unchanged,
so the next well-formed frame is decoded and emitted normally. -/
theorem parse_error_keeps_stream (decode : List Nat → Option PlainTextMessage)
    (ready : Nat → Bool) (h : PrivateChatHandler) (bad good : List Nat)
    (rest : List StreamItem) (c : Bool) (m : PlainTextMessage)
    (herr : h.errors = [])
    (hpend : h.pending_sending_messages = [])
    (hready : firstReady ready h.outgoing_messages = none)
    (hstream : h.stream = some { items := StreamItem.data bad :: StreamItem.data good :: rest,
                                 closed := c })
    (hbad : decode bad = none) (hgood : decode good = some m) :
    ∃ h1 h2,
      h.poll decode ready = (PollResult.event (NetEvent.Error ErrorMessage.Parse), h1) ∧
      h1.stream = some { items := StreamItem.data good :: rest, closed := c } ∧
      h1.poll decode ready =
        (PollResult.event (NetEvent.ReceivedPlainTextMessage m), h2) ∧
      h2.stream = some { items := rest, closed := c } := by
  have step1 :
      h.poll decode ready =
        (PollResult.event (NetEvent.Error ErrorMessage.Parse),
         { h with
            pending_sending_messages := []
            outgoing_messages := h.outgoing_messages
            stream := some { items := StreamItem.data good :: rest, closed := c } }) := by
    simp only [PrivateChatHandler.poll, herr, hstream, hready, hpend, hbad,
      List.getLast?_nil, List.foldl_nil]
  have step2 :
      PrivateChatHandler.poll decode ready
        { h with
            pending_sending_messages := []
            outgoing_messages := h.outgoing_messages
            stream := some { items := StreamItem.data good :: rest, closed := c } } =
        (PollResult.event (NetEvent.ReceivedPlainTextMessage m),
         { h with
            pending_sending_messages := []
            outgoing_messages := h.outgoing_messages
            stream := some { items := rest, closed := c } }) := by
    simp only [PrivateChatHandler.poll, herr, hready, hgood,
      List.getLast?_nil, List.foldl_nil]
  exact ⟨_, _, step1, rfl, step2, rfl⟩

/-- C7: wrapping any byte sequence and converting back yields exactly the
original bytes, and that conversion releases the buffer; the text
conversion validates UTF-8, returns a decode error on invalid bytes, and
releases the buffer in the success and the failure case alike. -/
theorem byteArray_roundtrip_oneshot (v : List Nat) :
    (ByteArray.from_vec v).into_vec = (v, { data := v, live := false }) ∧
    (ByteArray.from_vec v).try_into_string =
      ((if utf8Valid v then Except.ok v else Except.error FromUtf8Error.invalid),
       { data := v, live := false }) :=
  ⟨rfl, rfl⟩

/-- C4: `send_message` returns `false` exactly when the global channel
handle is absent or one of the two buffer conversions fails; it never
emits an event; and on a full channel (failing `try_send`) it still
returns `true`, leaving the channel unchanged and emitting nothing. -/
theorem send_message_false_iff (cell : Option Channel) (peer msg : ByteArray)
    (ts : Nat) :
    ((send_message cell peer msg ts).1 = false ↔
      (cell = none ∨ utf8Valid peer.data = false ∨ utf8Valid msg.data = false)) ∧
    ((send_message cell peer msg ts).2.2 = []) ∧
    (∀ ch, cell = some ch → utf8Valid peer.data = true → utf8Valid msg.data = true →
      CHANNEL_BUFFER_SIZE ≤ ch.buffered.length →
      send_message cell peer msg ts = (true, some ch, [])) := by
  cases cell with
  | none =>
    refine ⟨by simp [send_message], by simp [send_message], ?_⟩
    intro ch hch
    exact absurd hch (by simp)
  | some ch =>
    by_cases hp : utf8Valid peer.data
    · by_cases hm : utf8Valid msg.data
      · refine ⟨?_, ?_, ?_⟩
        · simp [send_message, ByteArray.try_into_string, ByteArray.into_vec, hp, hm]
        · simp [send_message, ByteArray.try_into_string, ByteArray.into_vec, hp, hm]
        · intro ch' hch' _ _ hfull
          obtain rfl : ch = ch' := by injection hch'
          have hsend : ch.try_send
              { «to» := peer.data, timestamp := ts, text := msg.data } = (false, ch) := by
            simp only [Channel.try_send]
            rw [if_neg (by omega)]
          simp [send_message, ByteArray.try_into_string, ByteArray.into_vec, hp, hm, hsend]
      · refine ⟨?_, ?_, ?_⟩
        · simp [send_message, ByteArray.try_into_string, ByteArray.into_vec, hp, hm]
        · simp [send_message, ByteArray.try_into_string, ByteArray.into_vec, hp, hm]
        · intro ch' hch' _ hm'
          exact absurd hm' (by simp [hm])
    · refine ⟨?_, ?_, ?_⟩
      · simp [send_message, ByteArray.try_into_string, ByteArray.into_vec, hp]
      · simp [send_message, ByteArray.try_into_string, ByteArray.into_vec, hp]
      · intro ch' hch' hp'
        exact absurd hp' (by simp [hp])

theorem ofDigitsBE_eq (b : Nat) (l : List Nat) :
    ofDigitsBE b l = ofDigitsLE b l.reverse := by
  induction l using List.reverseRecOn with
  | nil => rfl
  | append_singleton l d ih =>
    have h1 : ofDigitsBE b (l ++ [d]) = (ofDigitsBE b l) * b + d := by
      simp [ofDigitsBE, List.foldl_append]
    have h2 : (l ++ [d]).reverse = d :: l.reverse := by simp
    rw [h1, h2, ofDigitsLE, List.foldr_cons, ← ofDigitsLE, ih]
    ring

theorem ofDigitsLE_natToDigits (b : Nat) (hb : 2 ≤ b) (n : Nat) :
    ofDigitsLE b (natToDigits b n) = n := by
  induction n using Nat.strong_induction_on with
  | _ n ih =>
    unfold natToDigits
    split
    · rename_i h
      rcases h with h | h
      · simp [ofDigitsLE, h]
      · omega
    · rename_i h
      push_neg at h
      rw [ofDigitsLE, List.foldr_cons, ← ofDigitsLE,
        ih (n / b) (Nat.div_lt_self (Nat.pos_of_ne_zero h.1) h.2)]
      exact Nat.mod_add_div n b

theorem natToDigits_concat (b : Nat) (hb : 2 ≤ b) :
    ∀ n, n ≠ 0 → ∃ t d, natToDigits b n = t ++ [d] ∧ d ≠ 0 ∧ d < b := by
  intro n
  induction n using Nat.strong_induction_on with
  | _ n ih =>
    intro hn
    unfold natToDigits
    rw [dif_neg (by push_neg; exact ⟨hn, by omega⟩)]
    by_cases hq : n / b = 0
    · refine ⟨[], n % b, by rw [hq]; simp [natToDigits], ?_, Nat.mod_lt _ (by omega)⟩
      have hlt : n < b := (Nat.div_eq_zero_iff (by omega)).mp hq
      rw [Nat.mod_eq_of_lt hlt]
      exact hn
    · obtain ⟨t, d, ht, hd0, hdb⟩ := ih (n / b) (Nat.div_lt_self (by omega) (by omega)) hq
      exact ⟨n % b :: t, d, by rw [ht]; rfl, hd0, hdb⟩

theorem natToDigits_lt (b : Nat) (hb : 2 ≤ b) :
    ∀ n d, d ∈ natToDigits b n → d < b := by
  intro n
  induction n using Nat.strong_induction_on with
  | _ n ih =>
    intro d hd
    unfold natToDigits at hd
    split at hd
    · simp at hd
    · rename_i h
      push_neg at h
      rcases List.mem_cons.mp hd with h1 | h1
      · subst h1
        exact Nat.mod_lt _ (by omega)
      · exact ih (n / b) (Nat.div_lt_self (by omega) (by omega)) d h1

theorem ofDigitsLE_pos (b : Nat) (hb : 2 ≤ b) :
    ∀ (t : List Nat) (d : Nat), d ≠ 0 → 0 < ofDigitsLE b (t ++ [d]) := by
  intro t
  induction t with
  | nil =>
    intro d hd
    simp only [List.nil_append, ofDigitsLE, List.foldr_cons, List.foldr_nil]
    omega
  | cons x t ih =>
    intro d hd
    have hpos := ih d hd
    rw [List.cons_append, ofDigitsLE, List.foldr_cons, ← ofDigitsLE]
    exact Nat.lt_of_lt_of_le (Nat.mul_pos (by omega) hpos) (Nat.le_add_left _ _)

theorem natToDigits_ofDigitsLE (b : Nat) (hb : 2 ≤ b) :
    ∀ u : List Nat, (∀ d ∈ u, d < b) →
      (u = [] ∨ ∃ t d, u = t ++ [d] ∧ d ≠ 0) →
      natToDigits b (ofDigitsLE b u) = u := by
  intro u
  induction u with
  | nil =>
    intro _ _
    simp [ofDigitsLE, natToDigits]
  | cons x u ih =>
    intro hlt hcanon
    rcases hcanon with h | ⟨t, d, ht, hd⟩
    · exact absurd h (by simp)
    cases u with
    | nil =>
      have hx : x = d := by
        cases t with
        | nil => simpa using ht
        | cons a t' =>
          exfalso
          have := congrArg List.length ht
          simp at this
      have hx0 : x ≠ 0 := hx ▸ hd
      have hxb : x < b := hlt x (by simp)
      simp only [ofDigitsLE, List.foldr_cons, List.foldr_nil]
      unfold natToDigits
      rw [dif_neg (by push_neg; exact ⟨by omega, by omega⟩)]
      rw [Nat.mul_zero, Nat.add_zero, Nat.mod_eq_of_lt hxb,
        Nat.div_eq_of_lt hxb]
      simp [natToDigits]
    | cons y u' =>
      have hcanon' : ∃ t' d', y :: u' = t' ++ [d'] ∧ d' ≠ 0 := by
        cases t with
        | nil =>
          exfalso
          have := congrArg List.length ht
          simp at this
        | cons a t' =>
          rw [List.cons_append] at ht
          injection ht with h1 h2
          exact ⟨t', d, h2, hd⟩
      have hm_pos : 0 < ofDigitsLE b (y :: u') := by
        obtain ⟨t', d', ht', hd'⟩ := hcanon'
        rw [ht']
        exact ofDigitsLE_pos b hb t' d' hd'
      have ihres := ih (fun e he => hlt e (List.mem_cons_of_mem _ he)) (Or.inr hcanon')
      have hx : x < b := hlt x (by simp)
      rw [ofDigitsLE, List.foldr_cons, ← ofDigitsLE]
      unfold natToDigits
      rw [dif_neg (by
        push_neg
        refine ⟨?_, by omega⟩
        have := Nat.mul_pos (show 0 < b by omega) hm_pos
        omega)]
      congr 1
      · rw [Nat.add_mul_mod_self_left]
        exact Nat.mod_eq_of_lt hx
      · rw [Nat.add_mul_div_left _ _ (show 0 < b by omega),
          Nat.div_eq_of_lt hx, Nat.zero_add]
        exact ihres

theorem countLeading_replicate_append (a k : Nat) (l : List Nat)
    (hl : l = [] ∨ ∃ y t, l = y :: t ∧ y ≠ a) :
    countLeading a (List.replicate k a ++ l) = k := by
  induction k with
  | zero =>
    simp only [List.replicate, List.nil_append]
    rcases hl with h | ⟨y, t, hyt, hy⟩
    · simp [h, countLeading]
    · simp [hyt, countLeading, hy]
  | succ k ih =>
    simp [List.replicate_succ, countLeading, ih]

theorem strip_decomp (a : Nat) (l : List Nat) :
    List.replicate (countLeading a l) a ++ stripLeading a l = l := by
  induction l with
  | nil => rfl
  | cons x xs ih =>
    by_cases hx : x = a
    · subst hx
      simp [countLeading, stripLeading, List.replicate_succ, ih]
    · simp [countLeading, stripLeading, hx]

theorem stripLeading_shape (a : Nat) (l : List Nat) :
    stripLeading a l = [] ∨ ∃ y t, stripLeading a l = y :: t ∧ y ≠ a := by
  induction l with
  | nil => exact Or.inl rfl
  | cons x xs ih =>
    by_cases hx : x = a
    · simpa [stripLeading, hx] using ih
    · exact Or.inr ⟨x, xs, by simp [stripLeading, hx], hx⟩

theorem mem_stripLeading (a : Nat) (l : List Nat) (x : Nat)
    (h : x ∈ stripLeading a l) : x ∈ l := by
  induction l with
  | nil => simpa [stripLeading] using h
  | cons y ys ih =>
    by_cases hy : y = a
    · simp only [stripLeading, if_pos hy] at h
      exact List.mem_cons_of_mem _ (ih h)
    · simpa [stripLeading, hy] using h

theorem ofDigitsBE_replicate_zero (b k : Nat) (l : List Nat) :
    ofDigitsBE b (List.replicate k 0 ++ l) = ofDigitsBE b l := by
  induction k with
  | zero => simp
  | succ k ih =>
    have h0 : (0 : Nat) * b + 0 = 0 := by simp
    simp only [List.replicate_succ, List.cons_append, ofDigitsBE, List.foldl_cons, h0]
    simpa [ofDigitsBE] using ih

theorem charDigit_digitChar : ∀ d, d < 58 → charDigit (digitChar d) = some d := by
  decide

theorem digitChar_ne_one : ∀ d, d < 58 → d ≠ 0 → digitChar d ≠ 0x31 := by
  decide

theorem charDigits_append (l1 l2 : List Nat) :
    charDigits (l1 ++ l2) =
      match charDigits l1, charDigits l2 with
      | some a, some c => some (a ++ c)
      | _, _ => none := by
  induction l1 with
  | nil =>
    simp only [List.nil_append, charDigits]
    cases charDigits l2 <;> rfl
  | cons x xs ih =>
    cases hx : charDigit x <;> cases hxs : charDigits xs <;> cases hl2 : charDigits l2 <;>
      simp [charDigits, List.append_eq, ih, hx, hxs, hl2]

theorem charDigits_replicate_one (k : Nat) :
    charDigits (List.replicate k 0x31) = some (List.replicate k 0) := by
  induction k with
  | zero => rfl
  | succ k ih =>
    have h : charDigit 0x31 = some 0 := by decide
    simp [List.replicate_succ, charDigits, ih, h]

theorem charDigits_map_digitChar (ds : List Nat) (h : ∀ d ∈ ds, d < 58) :
    charDigits (ds.map digitChar) = some ds := by
  induction ds with
  | nil => rfl
  | cons d ds ih =>
    simp only [List.map_cons, charDigits,
      charDigit_digitChar d (h d (by simp)),
      ih (fun e he => h e (List.mem_cons_of_mem _ he))]

theorem charDigits_none (s : List Nat) (h : ∃ c ∈ s, charDigit c = none) :
    charDigits s = none := by
  induction s with
  | nil => simp at h
  | cons c cs ih =>
    obtain ⟨c', hc', hnone⟩ := h
    rcases List.mem_cons.mp hc' with h1 | h1
    · subst h1
      simp [charDigits, hnone]
    · rw [charDigits, ih ⟨c', h1, hnone⟩]
      cases charDigit c <;> rfl

/-- C8: building a peer identity from any byte sequence (base58 encoding)
and decoding it back reproduces the original bytes; decoding a string
containing a character outside the base58 alphabet fails with a decode
error. -/
theorem peerId_base58_roundtrip :
    (∀ v : List Nat, (∀ x ∈ v, x < 256) →
      (PeerId.from_vec v).as_bytes = Except.ok v) ∧
    (∀ s : List Nat, (∃ c ∈ s, charDigit c = none) →
      (PeerId.new s).as_bytes = Except.error Bs58Error.invalidCharacter) := by
  constructor
  · intro v hv
    have hb58 : (2 : Nat) ≤ 58 := by omega
    have hb256 : (2 : Nat) ≤ 256 := by omega
    have hdecomp := strip_decomp 0 v
    have hshape := stripLeading_shape 0 v
    have hn : ofDigitsBE 256 v = ofDigitsLE 256 (stripLeading 0 v).reverse := by
      conv_lhs => rw [← hdecomp]
      rw [ofDigitsBE_replicate_zero, ofDigitsBE_eq]
    have hdlt : ∀ d ∈ (natToDigits 58 (ofDigitsBE 256 v)).reverse, d < 58 := fun d hd =>
      natToDigits_lt 58 hb58 _ d (List.mem_reverse.mp hd)
    have hchars :
        charDigits (List.replicate (countLeading 0 v) 0x31 ++
          (natToDigits 58 (ofDigitsBE 256 v)).reverse.map digitChar) =
          some (List.replicate (countLeading 0 v) 0 ++
            (natToDigits 58 (ofDigitsBE 256 v)).reverse) := by
      rw [charDigits_append, charDigits_replicate_one,
        charDigits_map_digitChar _ hdlt]
    have hcount :
        countLeading 0x31 (List.replicate (countLeading 0 v) 0x31 ++
          (natToDigits 58 (ofDigitsBE 256 v)).reverse.map digitChar) =
          countLeading 0 v := by
      apply countLeading_replicate_append
      by_cases hn0 : ofDigitsBE 256 v = 0
      · left
        rw [hn0]
        simp [natToDigits]
      · right
        obtain ⟨t, d, ht, hd0, hdl⟩ := natToDigits_concat 58 hb58 _ hn0
        exact ⟨digitChar d, t.reverse.map digitChar, by rw [ht]; simp,
          digitChar_ne_one d hdl hd0⟩
    have hvalue :
        ofDigitsBE 58 (List.replicate (countLeading 0 v) 0 ++
          (natToDigits 58 (ofDigitsBE 256 v)).reverse) = ofDigitsBE 256 v := by
      rw [ofDigitsBE_replicate_zero, ofDigitsBE_eq, List.reverse_reverse,
        ofDigitsLE_natToDigits 58 hb58]
    have hbytes : natToDigits 256 (ofDigitsBE 256 v) = (stripLeading 0 v).reverse := by
      rcases hshape with h0 | ⟨y, t, hyt, hy⟩
      · have hz : ofDigitsBE 256 v = 0 := by rw [hn, h0]; rfl
        rw [hz, h0]
        simp [natToDigits]
      · have hcanon : (stripLeading 0 v).reverse = [] ∨
            ∃ t' d', (stripLeading 0 v).reverse = t' ++ [d'] ∧ d' ≠ 0 :=
          Or.inr ⟨t.reverse, y, by rw [hyt]; simp, hy⟩
        have hwlt : ∀ d ∈ (stripLeading 0 v).reverse, d < 256 := fun d hd =>
          hv d (mem_stripLeading 0 v d (List.mem_reverse.mp hd))
        rw [hn, natToDigits_ofDigitsLE 256 hb256 _ hwlt hcanon]
    show bs58_decode
        (List.replicate (countLeading 0 v) 0x31 ++
          (natToDigits 58 (ofDigitsBE 256 v)).reverse.map digitChar) = Except.ok v
    unfold bs58_decode
    rw [hchars]
    simp only [hcount, hvalue, hbytes, List.reverse_reverse, hdecomp]
  · intro s hs
    show bs58_decode s = Except.error Bs58Error.invalidCharacter
    unfold bs58_decode
    rw [charDigits_none s hs]

theorem peerId_base58_roundtrip_witness :
    (PeerId.from_vec [0, 255]).as_bytes = Except.ok [0, 255] ∧
    (PeerId.new [0x30]).as_bytes = Except.error Bs58Error.invalidCharacter :=
  ⟨peerId_base58_roundtrip.1 [0, 255] (by decide),
   peerId_base58_roundtrip.2 [0x30] (by decide)⟩

theorem send_message_false_iff_witness :
    send_message
      (some { buffered := List.replicate 10 { «to» := [], timestamp := 0, text := [] } })
      (ByteArray.from_vec [0x41]) (ByteArray.from_vec [0x42]) 7 =
      (true,
       some { buffered := List.replicate 10 { «to» := [], timestamp := 0, text := [] } },
       []) :=
  (send_message_false_iff
    (some { buffered := List.replicate 10 { «to» := [], timestamp := 0, text := [] } })
    (ByteArray.from_vec [0x41]) (ByteArray.from_vec [0x42]) 7).2.2
    { buffered := List.replicate 10 { «to» := [], timestamp := 0, text := [] } }
    rfl (by decide) (by decide) (by decide)

theorem parse_error_keeps_stream_witness :
    ∃ h1 h2,
      PrivateChatHandler.poll
        (fun b => if b = [1] then some { «to» := [2], timestamp := 5, text := [3] } else none)
        (fun _ => false)
        { local_metadata := { identity := [] },
          stream := some { items := [StreamItem.data [0], StreamItem.data [1]],
                           closed := false },
          pending_metadata := none, pending_sending_messages := [],
          outgoing_messages := [], errors := [], retry := none, retry_value := 1 } =
        (PollResult.event (NetEvent.Error ErrorMessage.Parse), h1) ∧
      h1.stream = some { items := [StreamItem.data [1]], closed := false } ∧
      h1.poll
        (fun b => if b = [1] then some { «to» := [2], timestamp := 5, text := [3] } else none)
        (fun _ => false) =
        (PollResult.event
          (NetEvent.ReceivedPlainTextMessage { «to» := [2], timestamp := 5, text := [3] }), h2) ∧
      h2.stream = some { items := [], closed := false } := by
  exact parse_error_keeps_stream
    (fun b => if b = [1] then some { «to» := [2], timestamp := 5, text := [3] } else none)
    (fun _ => false) _ [0] [1] [] false { «to» := [2], timestamp := 5, text := [3] }
    rfl rfl rfl rfl (by decide) (by decide)

end Tata

namespace Tata

theorem hexVal_hexDigitChar : ∀ d, d < 16 → hexVal (hexDigitChar d) = some d := by
  decide

theorem jsonEscape_nil : jsonEscape [] = [] := rfl

theorem jsonEscape_cons (b : Nat) (s : List Nat) :
    jsonEscape (b :: s) = jsonEscapeByte b ++ jsonEscape s := by
  simp [jsonEscape]

theorem skipWs_cons (c : Nat) (l : List Nat) (h : isWs c = false) :
    skipWs (c :: l) = c :: l := by
  simp [skipWs, List.dropWhile_cons, h]

theorem jsonStringEnc_append (s tail : List Nat) :
    jsonStringEnc s ++ tail = 0x22 :: (jsonEscape s ++ 0x22 :: tail) := by
  simp [jsonStringEnc]

theorem skipWs_quote (l : List Nat) : skipWs (0x22 :: l) = 0x22 :: l :=
  skipWs_cons _ _ (by decide)

theorem skipWs_colon (l : List Nat) : skipWs (0x3A :: l) = 0x3A :: l :=
  skipWs_cons _ _ (by decide)

theorem skipWs_comma (l : List Nat) : skipWs (0x2C :: l) = 0x2C :: l :=
  skipWs_cons _ _ (by decide)

theorem skipWs_rbrace (l : List Nat) : skipWs (0x7D :: l) = 0x7D :: l :=
  skipWs_cons _ _ (by decide)

theorem skipWs_lbrace (l : List Nat) : skipWs (0x7B :: l) = 0x7B :: l :=
  skipWs_cons _ _ (by decide)

theorem parseStringBody_quote (rest : List Nat) :
    parseStringBody (0x22 :: rest) = some ([], rest) := by
  rw [parseStringBody.eq_def]
  simp

theorem parseStringBody_escaped (e c : Nat) (rest : List Nat)
    (h : (e = 0x22 ∧ c = 0x22) ∨ (e = 0x5C ∧ c = 0x5C) ∨ (e = 0x2F ∧ c = 0x2F) ∨
      (e = 0x62 ∧ c = 0x08) ∨ (e = 0x66 ∧ c = 0x0C) ∨ (e = 0x6E ∧ c = 0x0A) ∨
      (e = 0x72 ∧ c = 0x0D) ∨ (e = 0x74 ∧ c = 0x09)) :
    parseStringBody (0x5C :: e :: rest) =
      (parseStringBody rest).map (fun p => (c :: p.1, p.2)) := by
  rcases h with ⟨he, hc⟩ | ⟨he, hc⟩ | ⟨he, hc⟩ | ⟨he, hc⟩ | ⟨he, hc⟩ | ⟨he, hc⟩ |
    ⟨he, hc⟩ | ⟨he, hc⟩ <;>
    (subst he; subst hc; rw [parseStringBody.eq_def]; simp)

theorem parseStringBody_u (h1 h2 h3 h4 : Nat) (rest : List Nat) (a1 a2 a3 a4 : Nat)
    (hv1 : hexVal h1 = some a1) (hv2 : hexVal h2 = some a2)
    (hv3 : hexVal h3 = some a3) (hv4 : hexVal h4 = some a4)
    (hlt : a1 * 4096 + a2 * 256 + a3 * 16 + a4 < 0x80) :
    parseStringBody (0x5C :: 0x75 :: h1 :: h2 :: h3 :: h4 :: rest) =
      (parseStringBody rest).map
        (fun p => ((a1 * 4096 + a2 * 256 + a3 * 16 + a4) :: p.1, p.2)) := by
  rw [parseStringBody.eq_def]
  simp [hv1, hv2, hv3, hv4, hlt]

theorem parseStringBody_raw (b : Nat) (rest : List Nat)
    (h1 : b ≠ 0x22) (h2 : b ≠ 0x5C) :
    parseStringBody (b :: rest) =
      (parseStringBody rest).map (fun p => (b :: p.1, p.2)) := by
  rw [parseStringBody.eq_def]
  simp [h1, h2]

theorem parseStringBody_escape (s rest : List Nat) :
    parseStringBody (jsonEscape s ++ 0x22 :: rest) = some (s, rest) := by
  induction s with
  | nil =>
    simp [jsonEscape_nil, parseStringBody_quote]
  | cons b s ih =>
    rw [jsonEscape_cons, List.append_assoc]
    by_cases h8 : b < 0x20
    · interval_cases b <;>
        simp [jsonEscapeByte, hexDigitChar, hexVal, parseStringBody_quote,
          parseStringBody_escaped, parseStringBody_u, parseStringBody_raw, ih]
    · by_cases h1 : b = 0x22
      · subst h1
        simp [jsonEscapeByte, parseStringBody_escaped, ih]
      · by_cases h2 : b = 0x5C
        · subst h2
          simp [jsonEscapeByte, parseStringBody_escaped, ih]
        · have hesc : jsonEscapeByte b = [b] := by
            simp only [jsonEscapeByte, if_neg h1, if_neg h2,
              if_neg (by omega : ¬b = 0x08), if_neg (by omega : ¬b = 0x09),
              if_neg (by omega : ¬b = 0x0A), if_neg (by omega : ¬b = 0x0C),
              if_neg (by omega : ¬b = 0x0D), if_neg h8]
          rw [hesc, List.singleton_append, parseStringBody_raw b _ h1 h2]
          simp [ih]

theorem parseMembersAux_one (f : Nat) (k v tail : List Nat) :
    parseMembersAux (f + 1)
      (jsonStringEnc k ++ 0x3A :: jsonStringEnc v ++ 0x7D :: tail) =
      some ([(k, v)], tail) := by
  simp only [jsonStringEnc_append, List.cons_append, List.append_assoc,
    parseMembersAux, skipWs_quote, skipWs_colon, skipWs_comma, skipWs_rbrace,
    parseStringBody_escape]

theorem parseMembersAux_two (f : Nat) (k1 v1 k2 v2 tail : List Nat) :
    parseMembersAux (f + 2)
      (jsonStringEnc k1 ++ 0x3A :: jsonStringEnc v1 ++
        0x2C :: jsonStringEnc k2 ++ 0x3A :: jsonStringEnc v2 ++ 0x7D :: tail) =
      some ([(k1, v1), (k2, v2)], tail) := by
  simp only [jsonStringEnc_append, List.cons_append, List.append_assoc,
    parseMembersAux, skipWs_quote, skipWs_colon, skipWs_comma, skipWs_rbrace,
    parseStringBody_escape]

theorem parseObject_obj1 (k v : List Nat) :
    parseObject (encodeObj1 k v) = some ([(k, v)], []) := by
  unfold parseObject
  set n := (encodeObj1 k v).length with hn
  have h1 := parseMembersAux_one n k v []
  simp only [jsonStringEnc_append, List.cons_append, List.append_assoc] at h1
  simp only [show encodeObj1 k v =
      0x7B :: (jsonStringEnc k ++ 0x3A :: jsonStringEnc v ++ [0x7D]) from rfl,
    jsonStringEnc_append, List.cons_append, List.append_assoc,
    skipWs_lbrace, skipWs_quote]
  exact h1

theorem parseObject_obj2 (k1 v1 k2 v2 : List Nat) :
    parseObject (encodeObj2 k1 v1 k2 v2) = some ([(k1, v1), (k2, v2)], []) := by
  unfold parseObject
  have hlen : (encodeObj2 k1 v1 k2 v2).length =
      (jsonStringEnc k1 ++ 0x3A :: jsonStringEnc v1 ++ 0x2C :: jsonStringEnc k2 ++
        0x3A :: jsonStringEnc v2 ++ [0x7D]).length + 1 := by
    simp [encodeObj2]
  rw [hlen]
  set m := (jsonStringEnc k1 ++ 0x3A :: jsonStringEnc v1 ++ 0x2C :: jsonStringEnc k2 ++
    0x3A :: jsonStringEnc v2 ++ [0x7D]).length with hm
  have h1 := parseMembersAux_two m k1 v1 k2 v2 []
  simp only [jsonStringEnc_append, List.cons_append, List.append_assoc] at h1
  simp only [show encodeObj2 k1 v1 k2 v2 =
      0x7B :: (jsonStringEnc k1 ++ 0x3A :: jsonStringEnc v1 ++
        0x2C :: jsonStringEnc k2 ++ 0x3A :: jsonStringEnc v2 ++ [0x7D]) from rfl,
    jsonStringEnc_append, List.cons_append, List.append_assoc,
    skipWs_lbrace, skipWs_quote]
  exact h1

end Tata

namespace Tata

theorem structMembers_obj1 (k v : List Nat) :
    structMembers (encodeObj1 k v) = some [(k, v)] := by
  simp [structMembers, parseObject_obj1, skipWs]

theorem structMembers_obj2 (k1 v1 k2 v2 : List Nat) :
    structMembers (encodeObj2 k1 v1 k2 v2) = some [(k1, v1), (k2, v2)] := by
  simp [structMembers, parseObject_obj2, skipWs]

theorem getField_two_first (kA kB f t : List Nat) (h1 : (kA == kA) = true)
    (h2 : (kB == kA) = false) :
    getField [(kA, f), (kB, t)] kA = some f := by
  simp [getField, List.filter_cons, h1, h2]

theorem getField_two_second (kA kB f t : List Nat) (h1 : (kA == kB) = false)
    (h2 : (kB == kB) = true) :
    getField [(kA, f), (kB, t)] kB = some t := by
  simp [getField, List.filter_cons, h1, h2]

theorem getField_one (kA p : List Nat) (h1 : (kA == kA) = true) :
    getField [(kA, p)] kA = some p := by
  simp [getField, List.filter_cons, h1]

end Tata

namespace Tata.EventCodec

theorem plainText_from_to (m : PlainTextMessage) :
    PlainTextMessage.from_slice m.to_vec = some m := by
  have g1 : getField [(keyFrom, m.«from»), (keyText, m.text)] keyFrom = some m.«from» :=
    getField_two_first keyFrom keyText m.«from» m.text (by decide) (by decide)
  have g2 : getField [(keyFrom, m.«from»), (keyText, m.text)] keyText = some m.text :=
    getField_two_second keyFrom keyText m.«from» m.text (by decide) (by decide)
  simp [PlainTextMessage.to_vec, PlainTextMessage.from_slice, structMembers_obj2,
    g1, g2]

theorem peerDiscovery_from_to (m : PeerDiscoveryMessage) :
    PeerDiscoveryMessage.from_slice m.to_vec = some m := by
  have g1 : getField [(keyPeerId, m.peer_id)] keyPeerId = some m.peer_id :=
    getField_one keyPeerId m.peer_id (by decide)
  simp [PeerDiscoveryMessage.to_vec, PeerDiscoveryMessage.from_slice,
    structMembers_obj1, g1]

theorem metadata_from_to (m : MetadataMessage) :
    MetadataMessage.from_slice m.to_vec = some m := by
  have g1 : getField [(keyPeerId, m.peer_id)] keyPeerId = some m.peer_id :=
    getField_one keyPeerId m.peer_id (by decide)
  simp [MetadataMessage.to_vec, MetadataMessage.from_slice,
    structMembers_obj1, g1]

/-- C5: for every value of the four domain-event variants, encoding to the
tagged wire form and decoding back yields an equal value; for any tag, a
payload that does not parse as that tag's struct yields a decode error
(decoding is total — there is no panic and no unknown-tag case). -/
theorem event_codec_roundtrip :
    (∀ e : Event, Event.try_from (Event.into_ffi e) = Except.ok e) ∧
    (∀ (t : EventTag) (bytes : List Nat),
      (match t with
       | EventTag.PlainTextMessage => PlainTextMessage.from_slice bytes = none
       | EventTag.PeerDiscovered => PeerDiscoveryMessage.from_slice bytes = none
       | EventTag.PeerGone => PeerDiscoveryMessage.from_slice bytes = none
       | EventTag.Metadata => MetadataMessage.from_slice bytes = none) →
      Event.try_from { tag := t, data := ByteArray.from_vec bytes } =
        Except.error JsonError.parse) := by
  constructor
  · intro e
    cases e with
    | PlainTextMessage d =>
      simp [Event.into_ffi, Event.try_from, ByteArray.into_vec,
        ByteArray.from_vec, plainText_from_to]
    | Metadata d =>
      simp [Event.into_ffi, Event.try_from, ByteArray.into_vec,
        ByteArray.from_vec, metadata_from_to]
    | PeerDiscovered d =>
      simp [Event.into_ffi, Event.try_from, ByteArray.into_vec,
        ByteArray.from_vec, peerDiscovery_from_to]
    | PeerGone d =>
      simp [Event.into_ffi, Event.try_from, ByteArray.into_vec,
        ByteArray.from_vec, peerDiscovery_from_to]
  · intro t bytes hfail
    cases t <;>
      simp_all [Event.try_from, ByteArray.into_vec, ByteArray.from_vec]

theorem event_codec_roundtrip_witness :
    Event.try_from
        (Event.into_ffi (Event.PlainTextMessage { «from» := [0x61], text := [0x0A] })) =
      Except.ok (Event.PlainTextMessage { «from» := [0x61], text := [0x0A] }) ∧
    Event.try_from { tag := EventTag.PlainTextMessage, data := ByteArray.from_vec [] } =
      Except.error JsonError.parse :=
  ⟨event_codec_roundtrip.1 (Event.PlainTextMessage { «from» := [0x61], text := [0x0A] }),
   event_codec_roundtrip.2 EventTag.PlainTextMessage [] (by decide)⟩

end Tata.EventCodec
